import Mathlib

/-!
# A verification model of the greni build orchestrator

This file gives a shallow embedding, in Lean, of the core of the `greni`
incremental build tool (a Node.js program): the component-compile stage with
its mtime-based staleness cache (`compileSvelte`,
`computeComponentOutputPath`), the custom rollup module resolver
(`rollupIncludePaths`, embedded here as `resolveId` and
`searchProjectModule`), the plugin pipeline assembly (`compileRollup`,
embedded as `compileRollupPlugins`), the lint gating plugin (`rollupEslint`,
embedded as `eslintTransform` with `lintFilter`), and the top-level
error-propagation / exit-code behaviour of `build` and `main`.

The filesystem is modelled as an association list from absolute path to
modification time; writing a file conses a fresh entry (shadowing any older
one), and `fs.statSync` is a lookup.  Strings model paths; Node's
`path.resolve` / `path.join` / `path.dirname` are modelled without `.`/`..`
normalization, which none of the verified properties depend on.
-/

set_option maxHeartbeats 1000000

namespace Greni

/-- `config.debugMode ? 'debug' : 'prod'` — the build-mode identity. -/
def buildMode (debugMode : Bool) : String :=
  if debugMode then "debug" else "prod"

/-- The characters of the anchored pattern in the regex `/\.html$/`. -/
def htmlExt : List Char := ['.', 'h', 't', 'm', 'l']

/-- `s.replace(/\.html$/, '.js')` at the character level: the only
length-five tail of the list is its final five characters, so this replaces
a trailing `.html` by `.js` and leaves every other list unchanged. -/
def replaceHtmlExtChars : List Char → List Char
  | [] => []
  | c :: rest =>
    if (c :: rest) == htmlExt then ['.', 'j', 's']
    else c :: replaceHtmlExtChars rest

/-- `componentPath.replace(/\.html$/, '.js')`. -/
def replaceHtmlExt (s : String) : String :=
  ⟨replaceHtmlExtChars s.data⟩

/-- `/\.html$/.test(s)` at the character level. -/
def hasHtmlExtChars : List Char → Bool
  | [] => false
  | c :: rest => ((c :: rest) == htmlExt) || hasHtmlExtChars rest

/-- `/\.html$/.test(s)`: does the path name a Svelte component? -/
def hasHtmlExt (s : String) : Bool := hasHtmlExtChars s.data

/-- Whether a path string is absolute (begins with `/`). -/
def isAbsolute (s : String) : Bool :=
  match s.data with
  | [] => false
  | c :: _ => c == '/'

/-- Model of Node's `path.resolve(cwd, p)` (equally of
`path.resolve(cwd, '', p)`): an absolute `p` is returned as is, a relative
one is joined onto the working directory.  No `.`/`..` normalization. -/
def resolvePath (cwd p : String) : String :=
  if isAbsolute p then p else cwd ++ "/" ++ p

/-- Model of Node's `path.join(a, b)` for the shapes the resolver uses:
joining `"."` is the identity, otherwise the segments are glued with `/`. -/
def joinPath (a b : String) : String :=
  if b == "." then a else a ++ "/" ++ b

/-- Model of Node's `path.dirname`: everything before the last `/`;
`"."` when there is no slash, `"/"` when the only slash leads. -/
def dirname (s : String) : String :=
  match s.data.reverse.dropWhile (fun c => c != '/') with
  | [] => "."
  | [_] => "/"
  | _ :: rest => ⟨rest.reverse⟩

/-- `computeComponentOutputPath(root, componentPath, debugMode)`:
`pathModule.resolve(root + '/' + componentPath.replace(/\.html$/, '.js')
+ '.' + buildMode)`. -/
def computeComponentOutputPath (cwd root componentPath : String)
    (debugMode : Bool) : String :=
  resolvePath cwd
    (root ++ "/" ++ replaceHtmlExt componentPath ++ "." ++ buildMode debugMode)

/-- The modelled filesystem: pairs of absolute path and modification time.
A later write conses a new entry, shadowing any earlier one under lookup. -/
abbrev FSys := List (String × Nat)

/-- `fileExists(path)`: `statSync` succeeds exactly when the path has an
entry; the function returns the path itself, or null. -/
def fileExists (fs : FSys) (p : String) : Option String :=
  match fs.lookup p with
  | some _ => some p
  | none => none

/-- The mutable per-run state the component-compile stage touches: the
filesystem, the path-rewrite table `config._componentPaths`, and a count of
actual `svelte.compile` invocations. -/
structure CompileSt where
  fs : FSys
  table : List (String × String)
  compiles : Nat
deriving DecidableEq, Repr

/-- `compileSvelte(config, component)`: compute the mode-tagged output path,
register the source-to-output mapping, then compare the source mtime with
the artifact mtime (`0` when the artifact is missing) and skip compilation
when the artifact is not older; otherwise invoke the compiler and write the
artifact (its mtime becomes `now`).  A missing source makes `statSync`
throw, which aborts the build: that is the `none` result. -/
def compileSvelte (cwd output : String) (debugMode : Bool) (now : Nat)
    (component : String) (st : CompileSt) : Option (String × CompileSt) :=
  let outputPath := computeComponentOutputPath cwd output component debugMode
  let table1 := (resolvePath cwd (replaceHtmlExt component), outputPath) :: st.table
  match st.fs.lookup (resolvePath cwd component) with
  | none => none
  | some srcMtime =>
    let destMtime := (st.fs.lookup outputPath).getD 0
    if srcMtime ≤ destMtime then
      some (outputPath, { st with table := table1 })
    else
      some (outputPath,
        { fs := (outputPath, now) :: st.fs
          table := table1
          compiles := st.compiles + 1 })

/-- The component-compile stage over the declared component list, in order:
the loop `for (const component of components)` of `compileSvelte`. -/
def compileSvelteAll (cwd output : String) (debugMode : Bool) (now : Nat) :
    List String → CompileSt → Option CompileSt
  | [], st => some st
  | c :: rest, st =>
    match compileSvelte cwd output debugMode now c st with
    | none => none
    | some (_, st1) => compileSvelteAll cwd output debugMode now rest st1

/-- The state the module resolver reads and writes: the filesystem, the
path-rewrite table, the `originLookup` map from a compiled-output directory
back to its original source directory, and the compile count. -/
structure RState where
  fs : FSys
  table : List (String × String)
  originLookup : List (String × String)
  compiles : Nat
deriving DecidableEq, Repr

/-- `searchProjectModule(file)`: resolve an entry point against the working
directory — first the literal path, then the literal path with an `index`
segment appended; null when neither exists. -/
def searchProjectModule (cwd : String) (fs : FSys) (file : String) :
    Option String :=
  match fileExists fs (resolvePath cwd file) with
  | some p => some p
  | none => fileExists fs (resolvePath cwd file ++ "/index")

/-- `rollupIncludePaths(config).resolveId(file, origin)`: with no origin,
search the working directory; `svelte/shared.js` maps straight to the
installed shared runtime `sveltePath`; a `.html` reference is a component —
its origin directory is translated through `originLookup` when present,
the component is compiled on demand, and the compiled directory is recorded
in `originLookup`; otherwise the joined path is answered from the rewrite
table or from the filesystem.  `none` is a thrown compile error. -/
def resolveId (cwd sveltePath output : String) (debugMode : Bool) (now : Nat)
    (file : String) (origin : Option String) (st : RState) :
    Option (Option String × RState) :=
  match origin with
  | none => some (searchProjectModule cwd st.fs file, st)
  | some origin0 =>
    if file == "svelte/shared.js" then some (some sveltePath, st)
    else
      let originDir := dirname origin0
      if hasHtmlExt file then
        let srcDir := (st.originLookup.lookup originDir).getD originDir
        let path := joinPath srcDir file
        match compileSvelte cwd output debugMode now path ⟨st.fs, st.table, st.compiles⟩ with
        | none => none
        | some (outputPath, cst) =>
          some (some outputPath,
            { fs := cst.fs
              table := cst.table
              originLookup :=
                (dirname outputPath, joinPath srcDir (dirname file)) :: st.originLookup
              compiles := cst.compiles })
      else
        let path := joinPath originDir file
        match st.table.lookup path with
        | some mapped => some (some mapped, st)
        | none => some (fileExists st.fs path, st)

/-- The rollup plugins `compileRollup` can push, as stage tags. -/
inductive Plugin
  | includePaths
  | nodeResolve
  | eslintCheck
  | buble
  | uglify
deriving DecidableEq, Repr

/-- The plugin list `compileRollup(config)` assembles, in push order:
`rollupIncludePaths` and `rollupNodeResolve` first, then the eslint plugin
when `config.eslint` is set, then buble when `config.buble` is set, then
the uglify plugin when not in debug mode. -/
def compileRollupPlugins (eslintEnabled bubleConfigured debugMode : Bool) :
    List Plugin :=
  [Plugin.includePaths, Plugin.nodeResolve]
    ++ (if eslintEnabled then [Plugin.eslintCheck] else [])
    ++ (if bubleConfigured then [Plugin.buble] else [])
    ++ (if !debugMode then [Plugin.uglify] else [])

/-- Does `pat` occur at the head of the list? -/
def leadsWith : List Char → List Char → Bool
  | [], _ => true
  | _ :: _, [] => false
  | p :: ps, c :: cs => p == c && leadsWith ps cs

/-- Does `pat` occur anywhere in the list? -/
def containsChars (pat : List Char) : List Char → Bool
  | [] => leadsWith pat []
  | c :: cs => leadsWith pat (c :: cs) || containsChars pat cs

/-- `s.indexOf(pat) >= 0`: substring occurrence. -/
def strContains (s pat : String) : Bool := containsChars pat.data s.data

/-- An eslint report for one source unit: counts of error-severity and
warning-severity findings. -/
structure LintReport where
  errorCount : Nat
  warningCount : Nat
deriving DecidableEq, Repr

/-- `lintFilter(id)` of `compileRollup`: exclude anything under
`node_modules` and anything whose id contains a compiled component output
path (a value of `config._componentPaths`). -/
def lintFilter (table : List (String × String)) (id : String) : Bool :=
  if strContains id "/node_modules/" then false
  else if (table.map Prod.snd).any (fun key => strContains id key) then false
  else true

/-- What the eslint plugin's `transform(code, id)` does for one unit:
`skip` — the filter rejected the id, nothing is linted; `pass` — no
findings, returns null; `warned` — findings were printed but none of error
severity, returns null so the bundle still includes the unit; `fatal` —
an error-severity finding, `throw Error('Errors were found')`, which
rejects that entry point's bundle promise. -/
inductive LintOutcome
  | skip
  | pass
  | warned
  | fatal
deriving DecidableEq, Repr

/-- `rollupEslint(options, filter).transform` (src/unnamed/part_001
lines 158-187), with `report` standing for `cli.executeOnText`. -/
def eslintTransform (table : List (String × String))
    (report : String → LintReport) (id : String) : LintOutcome :=
  if !lintFilter table id then .skip
  else
    let r := report id
    if r.errorCount == 0 && r.warningCount == 0 then .pass
    else if r.errorCount != 0 then .fatal
    else .warned

/-- The fatal error taxonomy of the run. -/
inductive BuildError
  | configurationError
  | compileError
  | lintError
  | bundleError
  | filesystemError
deriving DecidableEq, Repr

/-- `Promise.all` over the per-entry-point bundle promises: resolves when
all resolve, rejects with the first rejection. -/
def promiseAll : List (Except BuildError Unit) → Except BuildError Unit
  | [] => .ok ()
  | .ok () :: rest => promiseAll rest
  | .error e :: _ => .error e

/-- `build(config)`: create the output directory (a failure other than
`EEXIST` throws), then run the bundle stage for every entry point.
`compileSorcery` never propagates a failure into this chain (its promise
is left dangling), so only the mkdir and the bundle results matter. -/
def build (mkdirResult : Except BuildError Unit)
    (entryResults : List (Except BuildError Unit)) : Except BuildError Unit :=
  match mkdirResult with
  | .error e => .error e
  | .ok () => promiseAll entryResults

/-- The tail of `main`: a configuration error is thrown before the promise
chain starts (the process dies with a non-zero status and prints nothing);
otherwise `build(config).then(() => console.log('Done!')).catch(... =>
process.exit(1))`.  The result is `(exit status, printed 'Done!')`. -/
def mainRun (configResult : Except BuildError Unit)
    (mkdirResult : Except BuildError Unit)
    (entryResults : List (Except BuildError Unit)) : Nat × Bool :=
  match configResult with
  | .error _ => (1, false)
  | .ok () =>
    match build mkdirResult entryResults with
    | .error _ => (1, false)
    | .ok () => (0, true)

/-- The output-path shape the spec states, written from its words: the
output directory, then the component's relative path with `.html` replaced
by `.js`, then a dot and the build-mode identity —
`<output>/<relativeComponentPath>.js.<mode>` — made absolute. -/
def specOutputPathModel (cwd output stem mode : String) : String :=
  resolvePath cwd (output ++ "/" ++ stem ++ ".js." ++ mode)

/-! ## String and path lemmas -/

theorem strData_append (s t : String) : (s ++ t).data = s.data ++ t.data := by
  cases s; cases t; rfl

theorem strAppend_assoc (a b c : String) : a ++ b ++ c = a ++ (b ++ c) := by
  cases a with
  | mk xs =>
    cases b with
    | mk ys =>
      cases c with
      | mk zs =>
        show String.mk (xs ++ ys ++ zs) = String.mk (xs ++ (ys ++ zs))
        rw [List.append_assoc]

theorem replaceHtmlExtChars_append (xs : List Char) :
    replaceHtmlExtChars (xs ++ htmlExt) = xs ++ ['.', 'j', 's'] := by
  induction xs with
  | nil => rfl
  | cons c rest ih =>
    show replaceHtmlExtChars (c :: (rest ++ htmlExt)) = _
    rw [replaceHtmlExtChars]
    have hne : ((c :: (rest ++ htmlExt)) == htmlExt) = false := by
      rw [beq_eq_false_iff_ne]
      intro h
      have := congrArg List.length h
      simp [htmlExt] at this
    rw [hne]
    simp [ih]

theorem replaceHtmlExt_append_html (b : String) :
    replaceHtmlExt (b ++ ".html") = b ++ ".js" := by
  unfold replaceHtmlExt
  rw [strData_append]
  have h1 : (".html" : String).data = htmlExt := rfl
  rw [h1, replaceHtmlExtChars_append]
  cases b with
  | mk xs => rfl

theorem hasHtmlExtChars_snoc_ne (xs : List Char) (c : Char) (h : c ≠ 'l') :
    hasHtmlExtChars (xs ++ [c]) = false := by
  induction xs with
  | nil =>
    show (([c] == htmlExt) || hasHtmlExtChars []) = false
    have : ([c] == htmlExt) = false := by
      rw [beq_eq_false_iff_ne]
      intro hEq
      have := congrArg List.length hEq
      simp [htmlExt] at this
    simp [this, hasHtmlExtChars]
  | cons x rest ih =>
    show ((x :: (rest ++ [c]) == htmlExt) || hasHtmlExtChars (rest ++ [c])) = false
    have hhead : ((x :: (rest ++ [c])) == htmlExt) = false := by
      rw [beq_eq_false_iff_ne]
      intro hEq
      have hlast := congrArg List.getLast? hEq
      rw [show x :: (rest ++ [c]) = (x :: rest) ++ [c] from rfl] at hlast
      rw [List.getLast?_concat] at hlast
      have : c = 'l' := by
        have h2 : (htmlExt).getLast? = some 'l' := rfl
        rw [h2] at hlast
        exact Option.some.inj hlast
      exact h this
    rw [hhead, ih]
    rfl

theorem hasHtmlExtChars_append_of (xs ys : List Char)
    (h : hasHtmlExtChars ys = true) : hasHtmlExtChars (xs ++ ys) = true := by
  induction xs with
  | nil => simpa using h
  | cons x rest ih =>
    show ((x :: (rest ++ ys) == htmlExt) || hasHtmlExtChars (rest ++ ys)) = true
    rw [ih]
    simp

theorem hasHtmlExt_append_of (s t : String) (h : hasHtmlExt t = true) :
    hasHtmlExt (s ++ t) = true := by
  unfold hasHtmlExt at *
  rw [strData_append]
  exact hasHtmlExtChars_append_of _ _ h

theorem hasHtmlExt_resolvePath (cwd c : String) (h : hasHtmlExt c = true) :
    hasHtmlExt (resolvePath cwd c) = true := by
  unfold resolvePath
  split
  · exact h
  · exact hasHtmlExt_append_of _ _ h

theorem hasHtmlExt_append_buildMode (p : String) (dbg : Bool) :
    hasHtmlExt (p ++ buildMode dbg) = false := by
  cases dbg
  · show hasHtmlExt (p ++ "prod") = false
    unfold hasHtmlExt
    rw [strData_append]
    have h1 : ("prod" : String).data = ['p', 'r', 'o'] ++ ['d'] := rfl
    rw [h1, ← List.append_assoc]
    exact hasHtmlExtChars_snoc_ne _ _ (by decide)
  · show hasHtmlExt (p ++ "debug") = false
    unfold hasHtmlExt
    rw [strData_append]
    have h1 : ("debug" : String).data = ['d', 'e', 'b', 'u'] ++ ['g'] := rfl
    rw [h1, ← List.append_assoc]
    exact hasHtmlExtChars_snoc_ne _ _ (by decide)

theorem hasHtmlExt_outputPath (cwd out c : String) (dbg : Bool) :
    hasHtmlExt (computeComponentOutputPath cwd out c dbg) = false := by
  unfold computeComponentOutputPath resolvePath
  split
  · exact hasHtmlExt_append_buildMode _ _
  · rw [← strAppend_assoc]
    exact hasHtmlExt_append_buildMode _ _

theorem isAbsolute_append_of_ne_nil (a b : String) (h : a.data ≠ []) :
    isAbsolute (a ++ b) = isAbsolute a := by
  unfold isAbsolute
  rw [strData_append]
  cases hd : a.data with
  | nil => exact absurd hd h
  | cons c rest => rfl

theorem strLen_append (s t : String) :
    (s ++ t).data.length = s.data.length + t.data.length := by
  rw [strData_append, List.length_append]

theorem append_left_ne (a s t : String)
    (h : s.data.length ≠ t.data.length) : a ++ s ≠ a ++ t := by
  intro heq
  apply h
  have h2 := congrArg (fun x : String => x.data.length) heq
  simp only [strLen_append] at h2
  omega

theorem mode_paths_distinct (cwd out c : String) :
    computeComponentOutputPath cwd out c true ≠
      computeComponentOutputPath cwd out c false := by
  intro h
  unfold computeComponentOutputPath at h
  have hb1 : buildMode true = "debug" := rfl
  have hb2 : buildMode false = "prod" := rfl
  rw [hb1, hb2] at h
  have hAne : (out ++ "/" ++ replaceHtmlExt c ++ ".").data ≠ [] := by
    rw [strData_append]
    have hdot : ("." : String).data = ['.'] := rfl
    rw [hdot]
    simp
  have hlen : ((out ++ "/" ++ replaceHtmlExt c ++ ".") ++ "debug").data.length ≠
      ((out ++ "/" ++ replaceHtmlExt c ++ ".") ++ "prod").data.length := by
    have h5 : ("debug" : String).data.length = 5 := rfl
    have h4 : ("prod" : String).data.length = 4 := rfl
    simp only [strLen_append, h5, h4]
    omega
  have habs : isAbsolute (out ++ "/" ++ replaceHtmlExt c ++ "." ++ "debug") =
      isAbsolute (out ++ "/" ++ replaceHtmlExt c ++ "." ++ "prod") := by
    rw [isAbsolute_append_of_ne_nil _ _ hAne, isAbsolute_append_of_ne_nil _ _ hAne]
  unfold resolvePath at h
  by_cases hc : isAbsolute (out ++ "/" ++ replaceHtmlExt c ++ "." ++ "debug") = true
  · have hc2 : isAbsolute (out ++ "/" ++ replaceHtmlExt c ++ "." ++ "prod") = true := by
      rw [← habs]; exact hc
    rw [if_pos hc, if_pos hc2] at h
    exact hlen (congrArg (fun x : String => x.data.length) h)
  · have hc2 : ¬isAbsolute (out ++ "/" ++ replaceHtmlExt c ++ "." ++ "prod") = true := by
      intro hx
      exact hc (by rw [habs]; exact hx)
    rw [if_neg hc, if_neg hc2] at h
    exact append_left_ne (cwd ++ "/") _ _ hlen h

/-! ## Behaviour of the component-compile stage -/

theorem compileSvelte_skip (cwd out : String) (dbg : Bool) (now : Nat)
    (c : String) (st : CompileSt) (s : Nat)
    (hsrc : st.fs.lookup (resolvePath cwd c) = some s)
    (hfresh : s ≤ (st.fs.lookup (computeComponentOutputPath cwd out c dbg)).getD 0) :
    compileSvelte cwd out dbg now c st =
      some (computeComponentOutputPath cwd out c dbg,
        { st with table :=
            (resolvePath cwd (replaceHtmlExt c),
             computeComponentOutputPath cwd out c dbg) :: st.table }) := by
  unfold compileSvelte
  rw [hsrc]
  simp [hfresh]

theorem compileSvelte_stale (cwd out : String) (dbg : Bool) (now : Nat)
    (c : String) (st : CompileSt) (s : Nat)
    (hsrc : st.fs.lookup (resolvePath cwd c) = some s)
    (hstale : (st.fs.lookup (computeComponentOutputPath cwd out c dbg)).getD 0 < s) :
    compileSvelte cwd out dbg now c st =
      some (computeComponentOutputPath cwd out c dbg,
        { fs := (computeComponentOutputPath cwd out c dbg, now) :: st.fs
          table :=
            (resolvePath cwd (replaceHtmlExt c),
             computeComponentOutputPath cwd out c dbg) :: st.table
          compiles := st.compiles + 1 }) := by
  unfold compileSvelte
  rw [hsrc]
  simp [Nat.not_le.mpr hstale]

theorem compileSvelte_outputPath (cwd out : String) (dbg : Bool) (now : Nat)
    (c : String) (st : CompileSt) (p : String) (st' : CompileSt)
    (h : compileSvelte cwd out dbg now c st = some (p, st')) :
    p = computeComponentOutputPath cwd out c dbg := by
  unfold compileSvelte at h
  cases hsrc : st.fs.lookup (resolvePath cwd c) with
  | none => rw [hsrc] at h; exact absurd h (by simp)
  | some s =>
    rw [hsrc] at h
    simp only at h
    split at h <;> · injection h with h1; injection h1 with h2 h3; exact h2.symm

theorem compileSvelte_src_stable (cwd out : String) (dbg : Bool) (now : Nat)
    (c : String) (st : CompileSt) (p : String) (st' : CompileSt)
    (h : compileSvelte cwd out dbg now c st = some (p, st')) :
    ∀ q, hasHtmlExt q = true → st'.fs.lookup q = st.fs.lookup q := by
  intro q hq
  unfold compileSvelte at h
  cases hsrc : st.fs.lookup (resolvePath cwd c) with
  | none => rw [hsrc] at h; exact absurd h (by simp)
  | some s =>
    rw [hsrc] at h
    simp only at h
    split at h
    · injection h with h1; injection h1 with h2 h3
      rw [← h3]
    · injection h with h1; injection h1 with h2 h3
      rw [← h3]
      show List.lookup q ((computeComponentOutputPath cwd out c dbg, now) :: st.fs) = _
      have hne : (q == computeComponentOutputPath cwd out c dbg) = false := by
        rw [beq_eq_false_iff_ne]
        intro hEq
        have := hasHtmlExt_outputPath cwd out c dbg
        rw [← hEq, hq] at this
        exact Bool.true_eq_false.mp this
      simp [List.lookup, hne]

theorem compileSvelte_table_mono (cwd out : String) (dbg : Bool) (now : Nat)
    (c : String) (st : CompileSt) (p : String) (st' : CompileSt)
    (h : compileSvelte cwd out dbg now c st = some (p, st')) :
    ∀ k, (st.table.lookup k).isSome = true → (st'.table.lookup k).isSome = true := by
  intro k hk
  unfold compileSvelte at h
  cases hsrc : st.fs.lookup (resolvePath cwd c) with
  | none => rw [hsrc] at h; exact absurd h (by simp)
  | some s =>
    rw [hsrc] at h
    simp only at h
    split at h <;>
    · injection h with h1; injection h1 with h2 h3
      rw [← h3]
      show (List.lookup k ((resolvePath cwd (replaceHtmlExt c),
        computeComponentOutputPath cwd out c dbg) :: st.table)).isSome = true
      by_cases hkk : (k == resolvePath cwd (replaceHtmlExt c)) = true
      · simp [List.lookup, hkk]
      · simp only [List.lookup, Bool.not_eq_true] at hkk ⊢
        rw [hkk]
        exact hk

theorem compileSvelte_registers (cwd out : String) (dbg : Bool) (now : Nat)
    (c : String) (st : CompileSt) (p : String) (st' : CompileSt)
    (h : compileSvelte cwd out dbg now c st = some (p, st')) :
    st'.table.lookup (resolvePath cwd (replaceHtmlExt c)) = some p := by
  have hp := compileSvelte_outputPath cwd out dbg now c st p st' h
  unfold compileSvelte at h
  cases hsrc : st.fs.lookup (resolvePath cwd c) with
  | none => rw [hsrc] at h; exact absurd h (by simp)
  | some s =>
    rw [hsrc] at h
    simp only at h
    split at h <;>
    · injection h with h1; injection h1 with h2 h3
      rw [← h3]
      simp [List.lookup, ← h2]

/-- A component whose artifact for the given mode is at least as new as its
source: the staleness cache will skip it. -/
def freshFor (cwd out : String) (dbg : Bool) (fs : FSys) (c : String) : Prop :=
  ∃ s, fs.lookup (resolvePath cwd c) = some s ∧
    s ≤ (fs.lookup (computeComponentOutputPath cwd out c dbg)).getD 0

theorem compileSvelte_of_freshFor (cwd out : String) (dbg : Bool) (now : Nat)
    (c : String) (st : CompileSt) (h : freshFor cwd out dbg st.fs c) :
    compileSvelte cwd out dbg now c st =
      some (computeComponentOutputPath cwd out c dbg,
        { st with table :=
            (resolvePath cwd (replaceHtmlExt c),
             computeComponentOutputPath cwd out c dbg) :: st.table }) := by
  obtain ⟨s, hsrc, hle⟩ := h
  exact compileSvelte_skip cwd out dbg now c st s hsrc hle

theorem compileSvelte_establishes_fresh (cwd out : String) (dbg : Bool) (now : Nat)
    (c : String) (st : CompileSt) (p : String) (st' : CompileSt)
    (hhtml : hasHtmlExt c = true)
    (hclock : ∀ m, st.fs.lookup (resolvePath cwd c) = some m → m ≤ now)
    (h : compileSvelte cwd out dbg now c st = some (p, st')) :
    freshFor cwd out dbg st'.fs c := by
  unfold compileSvelte at h
  cases hsrc : st.fs.lookup (resolvePath cwd c) with
  | none => rw [hsrc] at h; exact absurd h (by simp)
  | some s =>
    rw [hsrc] at h
    simp only at h
    split at h
    · injection h with h1; injection h1 with h2 h3
      rw [← h3]
      exact ⟨s, hsrc, by assumption⟩
    · injection h with h1; injection h1 with h2 h3
      rw [← h3]
      refine ⟨s, ?_, ?_⟩
      · show List.lookup (resolvePath cwd c)
          ((computeComponentOutputPath cwd out c dbg, now) :: st.fs) = some s
        have hne : (resolvePath cwd c == computeComponentOutputPath cwd out c dbg) = false := by
          rw [beq_eq_false_iff_ne]
          intro hEq
          have h1 := hasHtmlExt_resolvePath cwd c hhtml
          have h2 := hasHtmlExt_outputPath cwd out c dbg
          rw [← hEq, h1] at h2
          exact Bool.true_eq_false.mp h2
        simp [List.lookup, hne, hsrc]
      · show s ≤ (List.lookup (computeComponentOutputPath cwd out c dbg)
          ((computeComponentOutputPath cwd out c dbg, now) :: st.fs)).getD 0
        simp [List.lookup]
        exact hclock s hsrc

theorem compileSvelte_preserves_fresh (cwd out : String) (dbg : Bool) (now : Nat)
    (c c2 : String) (st : CompileSt) (p : String) (st' : CompileSt)
    (hfresh : freshFor cwd out dbg st.fs c)
    (hhtml : hasHtmlExt c = true)
    (hclock : ∀ m, st.fs.lookup (resolvePath cwd c) = some m → m ≤ now)
    (h : compileSvelte cwd out dbg now c2 st = some (p, st')) :
    freshFor cwd out dbg st'.fs c := by
  obtain ⟨s, hsrc, hle⟩ := hfresh
  have hsrc' : st'.fs.lookup (resolvePath cwd c) = some s := by
    rw [compileSvelte_src_stable cwd out dbg now c2 st p st' h _
      (hasHtmlExt_resolvePath cwd c hhtml)]
    exact hsrc
  refine ⟨s, hsrc', ?_⟩
  unfold compileSvelte at h
  cases hsrc2 : st.fs.lookup (resolvePath cwd c2) with
  | none => rw [hsrc2] at h; exact absurd h (by simp)
  | some s2 =>
    rw [hsrc2] at h
    simp only at h
    split at h
    · injection h with h1; injection h1 with h2 h3
      rw [← h3]
      exact hle
    · injection h with h1; injection h1 with h2 h3
      rw [← h3]
      show s ≤ (List.lookup (computeComponentOutputPath cwd out c dbg)
        ((computeComponentOutputPath cwd out c2 dbg, now) :: st.fs)).getD 0
      by_cases hkk : (computeComponentOutputPath cwd out c dbg ==
          computeComponentOutputPath cwd out c2 dbg) = true
      · simp [List.lookup, hkk]
        exact hclock s hsrc
      · simp only [Bool.not_eq_true] at hkk
        simp [List.lookup, hkk]
        exact hle

/-! ## Behaviour of the component-compile stage over the declared list -/

theorem compileSvelteAll_src_stable (cwd out : String) (dbg : Bool) (now : Nat) :
    ∀ (comps : List String) (st st' : CompileSt),
    compileSvelteAll cwd out dbg now comps st = some st' →
    ∀ q, hasHtmlExt q = true → st'.fs.lookup q = st.fs.lookup q := by
  intro comps
  induction comps with
  | nil =>
    intro st st' h q hq
    unfold compileSvelteAll at h
    injection h with h1
    rw [← h1]
  | cons c rest ih =>
    intro st st' h q hq
    unfold compileSvelteAll at h
    cases hc : compileSvelte cwd out dbg now c st with
    | none => rw [hc] at h; exact absurd h (by simp)
    | some pst =>
      obtain ⟨p, st1⟩ := pst
      rw [hc] at h
      simp only at h
      rw [ih st1 st' h q hq,
        compileSvelte_src_stable cwd out dbg now c st p st1 hc q hq]

theorem compileSvelteAll_preserves_fresh (cwd out : String) (dbg : Bool) (now : Nat)
    (c : String) (hhtml : hasHtmlExt c = true) :
    ∀ (comps : List String) (st st' : CompileSt),
    freshFor cwd out dbg st.fs c →
    (∀ m, st.fs.lookup (resolvePath cwd c) = some m → m ≤ now) →
    compileSvelteAll cwd out dbg now comps st = some st' →
    freshFor cwd out dbg st'.fs c := by
  intro comps
  induction comps with
  | nil =>
    intro st st' hfresh hclock h
    unfold compileSvelteAll at h
    injection h with h1
    rw [← h1]
    exact hfresh
  | cons c2 rest ih =>
    intro st st' hfresh hclock h
    unfold compileSvelteAll at h
    cases hc : compileSvelte cwd out dbg now c2 st with
    | none => rw [hc] at h; exact absurd h (by simp)
    | some pst =>
      obtain ⟨p, st1⟩ := pst
      rw [hc] at h
      simp only at h
      have hfresh1 := compileSvelte_preserves_fresh cwd out dbg now c c2 st p st1
        hfresh hhtml hclock hc
      have hclock1 : ∀ m, st1.fs.lookup (resolvePath cwd c) = some m → m ≤ now := by
        intro m hm
        apply hclock
        rw [← compileSvelte_src_stable cwd out dbg now c2 st p st1 hc _
          (hasHtmlExt_resolvePath cwd c hhtml)]
        exact hm
      exact ih st1 st' hfresh1 hclock1 h

theorem compileSvelteAll_establishes_fresh (cwd out : String) (dbg : Bool) (now : Nat) :
    ∀ (comps : List String) (st st' : CompileSt),
    (∀ c ∈ comps, hasHtmlExt c = true) →
    (∀ c ∈ comps, ∀ m, st.fs.lookup (resolvePath cwd c) = some m → m ≤ now) →
    compileSvelteAll cwd out dbg now comps st = some st' →
    ∀ c ∈ comps, freshFor cwd out dbg st'.fs c := by
  intro comps
  induction comps with
  | nil =>
    intro st st' _ _ _ c hc
    exact absurd hc (List.not_mem_nil c)
  | cons c0 rest ih =>
    intro st st' hhtml hclock h c hc
    unfold compileSvelteAll at h
    cases hc0 : compileSvelte cwd out dbg now c0 st with
    | none => rw [hc0] at h; exact absurd h (by simp)
    | some pst =>
      obtain ⟨p, st1⟩ := pst
      rw [hc0] at h
      simp only at h
      have hsrcStable := compileSvelte_src_stable cwd out dbg now c0 st p st1 hc0
      rcases List.mem_cons.mp hc with hceq | hcrest
      · subst hceq
        have hfresh1 := compileSvelte_establishes_fresh cwd out dbg now c st p st1
          (hhtml c (List.mem_cons_self c rest))
          (hclock c (List.mem_cons_self c rest)) hc0
        apply compileSvelteAll_preserves_fresh cwd out dbg now c
          (hhtml c (List.mem_cons_self c rest)) rest st1 st' hfresh1 _ h
        intro m hm
        apply hclock c (List.mem_cons_self c rest)
        rw [← hsrcStable _ (hasHtmlExt_resolvePath cwd c
          (hhtml c (List.mem_cons_self c rest)))]
        exact hm
      · apply ih st1 st' (fun x hx => hhtml x (List.mem_cons_of_mem c0 hx)) _ h c hcrest
        intro x hx m hm
        apply hclock x (List.mem_cons_of_mem c0 hx)
        rw [← hsrcStable _ (hasHtmlExt_resolvePath cwd x
          (hhtml x (List.mem_cons_of_mem c0 hx)))]
        exact hm

theorem compileSvelteAll_all_fresh_skip (cwd out : String) (dbg : Bool) (now : Nat) :
    ∀ (comps : List String) (st : CompileSt),
    (∀ c ∈ comps, freshFor cwd out dbg st.fs c) →
    ∃ st', compileSvelteAll cwd out dbg now comps st = some st' ∧
      st'.fs = st.fs ∧ st'.compiles = st.compiles := by
  intro comps
  induction comps with
  | nil =>
    intro st _
    exact ⟨st, rfl, rfl, rfl⟩
  | cons c rest ih =>
    intro st hfresh
    have hc := compileSvelte_of_freshFor cwd out dbg now c st
      (hfresh c (List.mem_cons_self c rest))
    have hfresh1 : ∀ x ∈ rest, freshFor cwd out dbg
        ({ st with table := (resolvePath cwd (replaceHtmlExt c),
            computeComponentOutputPath cwd out c dbg) :: st.table } : CompileSt).fs x := by
      intro x hx
      exact hfresh x (List.mem_cons_of_mem c hx)
    obtain ⟨st', h1, h2, h3⟩ := ih _ hfresh1
    refine ⟨st', ?_, h2, h3⟩
    unfold compileSvelteAll
    rw [hc]
    exact h1

theorem strEq_of_data (s t : String) (h : s.data = t.data) : s = t := by
  cases s
  cases t
  exact congrArg String.mk h

/-! ## The claims -/

/-- C1: when the artifact at the computed output path is at least as new as
the component source, `compileSvelte` skips compilation — the filesystem and
the compile count are untouched, only the rewrite-table entry is recorded —
and consequently a second run of the component-compile stage over the same
component list, with unchanged sources and unchanged mode, performs zero
compiler invocations and writes nothing. -/
theorem cache_skip_and_second_run_no_compiles :
    ∀ (cwd out : String) (dbg : Bool) (now now2 : Nat) (comp : String)
      (comps : List String) (st : CompileSt) (st1 : CompileSt) (s a : Nat),
    (st.fs.lookup (resolvePath cwd comp) = some s →
     st.fs.lookup (computeComponentOutputPath cwd out comp dbg) = some a →
     s ≤ a →
     compileSvelte cwd out dbg now comp st =
       some (computeComponentOutputPath cwd out comp dbg,
         { st with table :=
             (resolvePath cwd (replaceHtmlExt comp),
              computeComponentOutputPath cwd out comp dbg) :: st.table })) ∧
    ((∀ c ∈ comps, hasHtmlExt c = true) →
     (∀ c ∈ comps, ∀ m, st.fs.lookup (resolvePath cwd c) = some m → m ≤ now) →
     compileSvelteAll cwd out dbg now comps st = some st1 →
     ∃ st2, compileSvelteAll cwd out dbg now2 comps st1 = some st2 ∧
       st2.fs = st1.fs ∧ st2.compiles = st1.compiles) := by
  intro cwd out dbg now now2 comp comps st st1 s a
  constructor
  · intro h1 h2 h3
    apply compileSvelte_skip cwd out dbg now comp st s h1
    rw [h2]
    exact h3
  · intro hhtml hclock hrun
    apply compileSvelteAll_all_fresh_skip cwd out dbg now2 comps st1
    exact compileSvelteAll_establishes_fresh cwd out dbg now comps st st1
      hhtml hclock hrun

/-- C2: the debug and prod output paths of one component are distinct; a
source newer than the artifact forces a compiler invocation; a missing
artifact at the current mode's path (as after toggling debug/prod) forces a
compiler invocation; and the stage skips (no invocation, no write) exactly
when the artifact at the current mode's path is at least as new as the
source. -/
theorem staleness_and_mode_invalidation :
    ∀ (cwd out c : String) (dbg : Bool) (now : Nat) (st : CompileSt) (s : Nat),
    (computeComponentOutputPath cwd out c true ≠
      computeComponentOutputPath cwd out c false) ∧
    (st.fs.lookup (resolvePath cwd c) = some s →
      ((∀ a, st.fs.lookup (computeComponentOutputPath cwd out c dbg) = some a →
          a < s →
          ∃ st', compileSvelte cwd out dbg now c st =
            some (computeComponentOutputPath cwd out c dbg, st') ∧
            st'.compiles = st.compiles + 1) ∧
       (st.fs.lookup (computeComponentOutputPath cwd out c dbg) = none →
          1 ≤ s →
          ∃ st', compileSvelte cwd out dbg now c st =
            some (computeComponentOutputPath cwd out c dbg, st') ∧
            st'.compiles = st.compiles + 1) ∧
       ((∃ st', compileSvelte cwd out dbg now c st =
            some (computeComponentOutputPath cwd out c dbg, st') ∧
            st'.compiles = st.compiles ∧ st'.fs = st.fs) ↔
          s ≤ (st.fs.lookup (computeComponentOutputPath cwd out c dbg)).getD 0))) := by
  intro cwd out c dbg now st s
  refine ⟨mode_paths_distinct cwd out c, ?_⟩
  intro hsrc
  refine ⟨?_, ?_, ?_⟩
  · intro a ha hlt
    refine ⟨_, compileSvelte_stale cwd out dbg now c st s hsrc ?_, rfl⟩
    rw [ha]
    exact hlt
  · intro hnone hpos
    refine ⟨_, compileSvelte_stale cwd out dbg now c st s hsrc ?_, rfl⟩
    rw [hnone]
    exact hpos
  · constructor
    · rintro ⟨st', heq, hcomp, hfs⟩
      by_cases hle : s ≤ (st.fs.lookup (computeComponentOutputPath cwd out c dbg)).getD 0
      · exact hle
      · exfalso
        rw [compileSvelte_stale cwd out dbg now c st s hsrc (Nat.not_le.mp hle)] at heq
        injection heq with h1
        injection h1 with h2 h3
        rw [← h3] at hcomp
        simp at hcomp
    · intro hle
      refine ⟨_, compileSvelte_skip cwd out dbg now c st s hsrc hle, rfl, rfl⟩

/-- C3: for a component whose path carries the `.html` extension, the
compiled artifact's output path is exactly the spec's formula — the output
directory joined with the component's relative path, its `.html` extension
replaced by `.js`, suffixed with a dot and the build-mode identity, which is
`debug` in debug mode and `prod` otherwise. -/
theorem component_output_path_matches_spec :
    ∀ (cwd root stem : String) (dbg : Bool),
    computeComponentOutputPath cwd root (stem ++ ".html") dbg =
      specOutputPathModel cwd root stem (buildMode dbg) ∧
    (dbg = true → buildMode dbg = "debug") ∧
    (dbg = false → buildMode dbg = "prod") := by
  intro cwd root stem dbg
  refine ⟨?_, fun h => by rw [h]; rfl, fun h => by rw [h]; rfl⟩
  unfold computeComponentOutputPath specOutputPathModel
  rw [replaceHtmlExt_append_html]
  apply congrArg (fun p => resolvePath cwd p)
  apply strEq_of_data
  have h1 : ("/" : String).data = ['/'] := rfl
  have h2 : (".js" : String).data = ['.', 'j', 's'] := rfl
  have h3 : ("." : String).data = ['.'] := rfl
  have h4 : (".js." : String).data = ['.', 'j', 's', '.'] := rfl
  simp [strData_append, List.append_assoc, h1, h2, h3, h4]

/-- C4: resolving an entry point (no issuing file) searches the working
directory — the literal path when it exists, otherwise the literal path
with an `index` segment appended when that exists, otherwise null — and
touches no state. -/
theorem entry_point_resolution :
    ∀ (cwd sveltePath out : String) (dbg : Bool) (now : Nat) (file : String)
      (fs : FSys) (table originLkp : List (String × String)) (n : Nat),
    resolveId cwd sveltePath out dbg now file none ⟨fs, table, originLkp, n⟩ =
      some ((if (fs.lookup (resolvePath cwd file)).isSome then
               some (resolvePath cwd file)
             else if (fs.lookup (resolvePath cwd file ++ "/index")).isSome then
               some (resolvePath cwd file ++ "/index")
             else none),
            ⟨fs, table, originLkp, n⟩) := by
  intro cwd sveltePath out dbg now file fs table originLkp n
  unfold resolveId searchProjectModule fileExists
  cases h1 : fs.lookup (resolvePath cwd file) <;>
    cases h2 : fs.lookup (resolvePath cwd file ++ "/index") <;>
      simp [h1, h2]

/-- C10: with an issuing file present, the import reference
`svelte/shared.js` resolves to the installed shared-runtime path directly:
no origin-directory joining, no rewrite-table lookup, no existence check,
and no state change, whatever the state holds. -/
theorem svelte_shared_runtime_special_case :
    ∀ (cwd sveltePath out : String) (dbg : Bool) (now : Nat) (origin : String)
      (st : RState),
    resolveId cwd sveltePath out dbg now "svelte/shared.js" (some origin) st =
      some (some sveltePath, st) := by
  intro cwd sveltePath out dbg now origin st
  unfold resolveId
  simp

/-- C9: every `compileSvelte` invocation — the skip case included — records
the component's resolved source path (extension normalized to `.js`) as a
rewrite-table key mapped to the compiled output path, and neither
`compileSvelte` nor any `resolveId` outcome ever removes an existing
table entry. -/
theorem rewrite_table_registration_and_monotonicity :
    ∀ (cwd sveltePath out : String) (dbg : Bool) (now : Nat) (comp : String)
      (st : CompileSt) (p : String) (st' : CompileSt),
    (compileSvelte cwd out dbg now comp st = some (p, st') →
      p = computeComponentOutputPath cwd out comp dbg ∧
      st'.table.lookup (resolvePath cwd (replaceHtmlExt comp)) = some p ∧
      ∀ k, (st.table.lookup k).isSome = true → (st'.table.lookup k).isSome = true) ∧
    (∀ (rst rst' : RState) (file : String) (origin : Option String)
       (r : Option String),
      resolveId cwd sveltePath out dbg now file origin rst = some (r, rst') →
      ∀ k, (rst.table.lookup k).isSome = true →
        (rst'.table.lookup k).isSome = true) := by
  intro cwd sveltePath out dbg now comp st p st'
  constructor
  · intro h
    exact ⟨compileSvelte_outputPath cwd out dbg now comp st p st' h,
      compileSvelte_registers cwd out dbg now comp st p st' h,
      compileSvelte_table_mono cwd out dbg now comp st p st' h⟩
  · intro rst rst' file origin r h k hk
    cases origin with
    | none =>
      unfold resolveId at h
      injection h with h1
      injection h1 with h2 h3
      rw [← h3]
      exact hk
    | some o =>
      unfold resolveId at h
      simp only at h
      by_cases hsv : (file == "svelte/shared.js") = true
      · rw [if_pos hsv] at h
        injection h with h1
        injection h1 with h2 h3
        rw [← h3]
        exact hk
      · rw [if_neg hsv] at h
        by_cases hh : hasHtmlExt file = true
        · rw [if_pos hh] at h
          cases hc : compileSvelte cwd out dbg now
              (joinPath ((rst.originLookup.lookup (dirname o)).getD (dirname o)) file)
              ⟨rst.fs, rst.table, rst.compiles⟩ with
          | none => rw [hc] at h; exact absurd h (by simp)
          | some pcst =>
            obtain ⟨op, cst⟩ := pcst
            rw [hc] at h
            simp only at h
            injection h with h1
            injection h1 with h2 h3
            rw [← h3]
            exact compileSvelte_table_mono cwd out dbg now _
              ⟨rst.fs, rst.table, rst.compiles⟩ op cst hc k hk
        · rw [if_neg hh] at h
          cases ht : rst.table.lookup (joinPath (dirname o) file) with
          | some mapped =>
            rw [ht] at h
            simp only at h
            injection h with h1
            injection h1 with h2 h3
            rw [← h3]
            exact hk
          | none =>
            rw [ht] at h
            simp only at h
            injection h with h1
            injection h1 with h2 h3
            rw [← h3]
            exact hk

/-- C5 counterexample: an import that does not name a component
(`foo.js`), issued from a file in a compiled-output directory that
`originLookup` maps back to the original source directory, is joined
against the compiled-output directory — the resolver does not translate
the origin for it, and the returned path differs from the path the claimed
translation would produce. -/
theorem origin_translation_counterexample :
    resolveId "/cwd" "SP" "out" false 10 "foo.js" (some "/out/src/A.js.prod")
        ⟨[("/out/src/foo.js", 5), ("/proj/src/foo.js", 5)], [],
         [("/out/src", "/proj/src")], 0⟩ =
      some (some "/out/src/foo.js",
        ⟨[("/out/src/foo.js", 5), ("/proj/src/foo.js", 5)], [],
         [("/out/src", "/proj/src")], 0⟩) ∧
    List.lookup (dirname "/out/src/A.js.prod")
      [("/out/src", "/proj/src")] = some "/proj/src" ∧
    joinPath "/proj/src" "foo.js" = "/proj/src/foo.js" ∧
    ("/out/src/foo.js" : String) ≠ "/proj/src/foo.js" :=
  ⟨by decide, by decide, by decide, by decide⟩

/-- C5 (amended): for a *component* import — a reference carrying the
`.html` extension — issued from a file whose directory `originLookup` maps
back to an original source directory, the resolver joins the reference
against that translated source directory: the path it returns is the
compiled output path of the component at `joinPath srcDir file`. -/
theorem origin_translation_for_component_imports :
    ∀ (cwd sveltePath out : String) (dbg : Bool) (now : Nat)
      (file origin0 : String) (st : RState) (srcDir : String),
    hasHtmlExt file = true →
    st.originLookup.lookup (dirname origin0) = some srcDir →
    ∀ (r : Option String) (st' : RState),
    resolveId cwd sveltePath out dbg now file (some origin0) st = some (r, st') →
    r = some (computeComponentOutputPath cwd out (joinPath srcDir file) dbg) := by
  intro cwd sveltePath out dbg now file origin0 st srcDir hhtml hlkp r st' h
  unfold resolveId at h
  simp only at h
  have hsv : (file == "svelte/shared.js") = false := by
    rw [beq_eq_false_iff_ne]
    intro hEq
    rw [hEq] at hhtml
    exact absurd hhtml (by decide)
  have hsv' : ¬((file == "svelte/shared.js") = true) := by
    rw [hsv]
    exact Bool.false_ne_true
  rw [if_neg hsv', if_pos hhtml, hlkp] at h
  simp only [Option.getD_some] at h
  cases hc : compileSvelte cwd out dbg now (joinPath srcDir file)
      ⟨st.fs, st.table, st.compiles⟩ with
  | none => rw [hc] at h; exact absurd h (by simp)
  | some pcst =>
    obtain ⟨op, cst⟩ := pcst
    rw [hc] at h
    simp only at h
    injection h with h1
    injection h1 with h2 h3
    rw [← h2, compileSvelte_outputPath cwd out dbg now _ _ op cst hc]

/-- C6: the bundle stage's plugin list always starts with the module
resolver (with the node-resolve fallback right after it); the lint plugin
is present exactly when lint is enabled, the buble plugin exactly when
configured, the uglify plugin exactly when not in debug mode; and whenever
present they appear in the order resolver, lint, buble, uglify — so lint
sees un-minified input and the transpile stage precedes minification. -/
theorem bundle_stage_plugin_order :
    ∀ e b d : Bool,
    (compileRollupPlugins e b d).head? = some Plugin.includePaths ∧
    Plugin.nodeResolve ∈ compileRollupPlugins e b d ∧
    (Plugin.eslintCheck ∈ compileRollupPlugins e b d ↔ e = true) ∧
    (Plugin.buble ∈ compileRollupPlugins e b d ↔ b = true) ∧
    (Plugin.uglify ∈ compileRollupPlugins e b d ↔ d = false) ∧
    (e = true →
      (compileRollupPlugins e b d).indexOf Plugin.includePaths <
        (compileRollupPlugins e b d).indexOf Plugin.eslintCheck) ∧
    (e = true → b = true →
      (compileRollupPlugins e b d).indexOf Plugin.eslintCheck <
        (compileRollupPlugins e b d).indexOf Plugin.buble) ∧
    (e = true → d = false →
      (compileRollupPlugins e b d).indexOf Plugin.eslintCheck <
        (compileRollupPlugins e b d).indexOf Plugin.uglify) ∧
    (b = true → d = false →
      (compileRollupPlugins e b d).indexOf Plugin.buble <
        (compileRollupPlugins e b d).indexOf Plugin.uglify) := by
  intro e b d
  cases e <;> cases b <;> cases d <;> decide

/-- C7: the lint plugin skips (lints nothing in) any unit under
`node_modules` and any unit whose id contains a compiled component output
path recorded in the rewrite table; a linted unit with an error-severity
finding throws — failing that entry point's bundle — while a unit whose
findings are warnings only is logged and the transform returns null, so
the unit still flows into the output. -/
theorem lint_gating_and_exclusions :
    ∀ (table : List (String × String)) (report : String → LintReport)
      (id : String),
    (strContains id "/node_modules/" = true →
      eslintTransform table report id = LintOutcome.skip) ∧
    (∀ src outp, (src, outp) ∈ table → strContains id outp = true →
      eslintTransform table report id = LintOutcome.skip) ∧
    (lintFilter table id = true → (report id).errorCount ≠ 0 →
      eslintTransform table report id = LintOutcome.fatal) ∧
    (lintFilter table id = true → (report id).errorCount = 0 →
      (report id).warningCount ≠ 0 →
      eslintTransform table report id = LintOutcome.warned) ∧
    (lintFilter table id = true → (report id).errorCount = 0 →
      eslintTransform table report id ≠ LintOutcome.fatal) := by
  intro table report id
  refine ⟨?_, ?_, ?_, ?_, ?_⟩
  · intro hnm
    have hf : lintFilter table id = false := by
      unfold lintFilter
      rw [if_pos hnm]
    unfold eslintTransform
    rw [hf]
    rfl
  · intro src outp hmem hcont
    have hany : ((table.map Prod.snd).any fun key => strContains id key) = true := by
      rw [List.any_eq_true]
      exact ⟨outp, List.mem_map.mpr ⟨(src, outp), hmem, rfl⟩, hcont⟩
    have hf : lintFilter table id = false := by
      unfold lintFilter
      rw [hany]
      simp
    unfold eslintTransform
    rw [hf]
    rfl
  · intro hf herr
    unfold eslintTransform
    rw [hf]
    have h1 : ((report id).errorCount == 0) = false := by
      rw [beq_eq_false_iff_ne]
      exact herr
    have h2 : ((report id).errorCount != 0) = true := by
      unfold bne
      rw [h1]
      rfl
    simp only [h1, h2, Bool.false_and, Bool.not_true, if_false]
    rfl
  · intro hf herr hwarn
    unfold eslintTransform
    rw [hf]
    have h1 : ((report id).errorCount == 0) = true := by
      rw [beq_iff_eq]
      exact herr
    have h2 : ((report id).warningCount == 0) = false := by
      rw [beq_eq_false_iff_ne]
      exact hwarn
    have h3 : ((report id).errorCount != 0) = false := by
      unfold bne
      rw [h1]
      rfl
    simp only [h1, h2, h3, Bool.true_and, Bool.not_true, if_false]
    rfl
  · intro hf herr
    unfold eslintTransform
    rw [hf]
    have h1 : ((report id).errorCount == 0) = true := by
      rw [beq_iff_eq]
      exact herr
    have h3 : ((report id).errorCount != 0) = false := by
      unfold bne
      rw [h1]
      rfl
    by_cases hw : ((report id).warningCount == 0) = true
    · simp only [h1, hw, h3, Bool.true_and, Bool.not_true]
      intro hEq
      exact absurd hEq (by simp)
    · simp only [h1, h3, Bool.true_and, Bool.not_eq_true] at hw ⊢
      rw [hw]
      simp only [Bool.not_true, if_false]
      intro hEq
      exact absurd hEq (by simp)

theorem promiseAll_ok_iff :
    ∀ rs : List (Except BuildError Unit),
    promiseAll rs = Except.ok () ↔ ∀ r ∈ rs, r = Except.ok () := by
  intro rs
  induction rs with
  | nil => simp [promiseAll]
  | cons r rest ih =>
    cases r with
    | ok u =>
      cases u
      simp only [promiseAll, ih]
      constructor
      · intro hall x hx
        rcases List.mem_cons.mp hx with hx1 | hx2
        · rw [hx1]
        · exact hall x hx2
      · intro hall x hx
        exact hall x (List.mem_cons_of_mem _ hx)
    | error e =>
      simp only [promiseAll]
      constructor
      · intro hEq
        exact absurd hEq (by simp)
      · intro hall
        have := hall (Except.error e) (List.mem_cons_self _ _)
        exact absurd this (by simp)

/-- C8: the run exits with status 0 exactly when configuration loading, the
output-directory creation and every entry point's bundle succeeded — any
configuration, compile, lint, bundle or filesystem failure in the chain
yields exit status 1 — and `Done!` is printed exactly on the successful
runs. -/
theorem fatal_error_exit_and_done_message :
    ∀ (configResult mkdirResult : Except BuildError Unit)
      (entryResults : List (Except BuildError Unit)),
    ((mainRun configResult mkdirResult entryResults).1 = 0 ↔
      (configResult = Except.ok () ∧ mkdirResult = Except.ok () ∧
       ∀ r ∈ entryResults, r = Except.ok ())) ∧
    ((mainRun configResult mkdirResult entryResults).2 = true ↔
      (mainRun configResult mkdirResult entryResults).1 = 0) ∧
    ((mainRun configResult mkdirResult entryResults).1 ≠ 0 →
      (mainRun configResult mkdirResult entryResults).1 = 1) := by
  intro configResult mkdirResult entryResults
  cases configResult with
  | error e => simp [mainRun]
  | ok u =>
    cases u
    cases mkdirResult with
    | error e => simp [mainRun, build]
    | ok u2 =>
      cases u2
      unfold mainRun build
      cases hp : promiseAll entryResults with
      | error e =>
        have : ¬(∀ r ∈ entryResults, r = Except.ok ()) := by
          intro hall
          rw [(promiseAll_ok_iff entryResults).mpr hall] at hp
          exact absurd hp (by simp)
        simp [this]
      | ok u3 =>
        cases u3
        have hall : ∀ r ∈ entryResults, r = Except.ok () :=
          (promiseAll_ok_iff entryResults).mp hp
        simp only [hp]
        simp
        exact hall

/-- C5 (amended) witness: a concrete component import `B.html`, issued from
`/out/src/A.js.prod` whose directory the origin table maps to `/proj/src`,
resolves to the compiled output path of `/proj/src/B.html`. -/
theorem origin_translation_for_component_imports_witness :
    (some "/cwd/out//proj/src/B.js.prod" : Option String) =
      some (computeComponentOutputPath "/cwd" "out"
        (joinPath "/proj/src" "B.html") false) :=
  origin_translation_for_component_imports "/cwd" "SP" "out" false 10 "B.html"
    "/out/src/A.js.prod"
    ⟨[("/proj/src/B.html", 3)], [], [("/out/src", "/proj/src")], 0⟩
    "/proj/src" (by decide) (by decide)
    (some "/cwd/out//proj/src/B.js.prod")
    ⟨[("/cwd/out//proj/src/B.js.prod", 10), ("/proj/src/B.html", 3)],
     [("/proj/src/B.js", "/cwd/out//proj/src/B.js.prod")],
     [("/cwd/out//proj/src", "/proj/src"), ("/out/src", "/proj/src")], 1⟩
    (by decide)

/-! ## Concrete evaluations

Closed checks that the embedded operations actually take each branch the
theorems above talk about, on small inputs. -/

theorem compileSvelte_concrete_stale_run :
    compileSvelte "/cwd" "out" false 10 "src/A.html"
        ⟨[("/cwd/src/A.html", 3)], [], 0⟩ =
      some ("/cwd/out/src/A.js.prod",
        ⟨[("/cwd/out/src/A.js.prod", 10), ("/cwd/src/A.html", 3)],
         [("/cwd/src/A.js", "/cwd/out/src/A.js.prod")], 1⟩) := by
  decide

theorem compileSvelte_concrete_fresh_skip :
    compileSvelte "/cwd" "out" false 20 "src/A.html"
        ⟨[("/cwd/out/src/A.js.prod", 10), ("/cwd/src/A.html", 3)], [], 1⟩ =
      some ("/cwd/out/src/A.js.prod",
        ⟨[("/cwd/out/src/A.js.prod", 10), ("/cwd/src/A.html", 3)],
         [("/cwd/src/A.js", "/cwd/out/src/A.js.prod")], 1⟩) := by
  decide

theorem compileSvelte_concrete_mode_flip_recompiles :
    compileSvelte "/cwd" "out" true 20 "src/A.html"
        ⟨[("/cwd/out/src/A.js.prod", 10), ("/cwd/src/A.html", 3)], [], 1⟩ =
      some ("/cwd/out/src/A.js.debug",
        ⟨[("/cwd/out/src/A.js.debug", 20),
          ("/cwd/out/src/A.js.prod", 10), ("/cwd/src/A.html", 3)],
         [("/cwd/src/A.js", "/cwd/out/src/A.js.debug")], 2⟩) := by
  decide

theorem compileSvelteAll_concrete_second_run_free :
    (compileSvelteAll "/cwd" "out" false 10 ["src/A.html"]
        ⟨[("/cwd/src/A.html", 3)], [], 0⟩ =
      some ⟨[("/cwd/out/src/A.js.prod", 10), ("/cwd/src/A.html", 3)],
        [("/cwd/src/A.js", "/cwd/out/src/A.js.prod")], 1⟩) ∧
    (compileSvelteAll "/cwd" "out" false 30 ["src/A.html"]
        ⟨[("/cwd/out/src/A.js.prod", 10), ("/cwd/src/A.html", 3)],
         [("/cwd/src/A.js", "/cwd/out/src/A.js.prod")], 1⟩ =
      some ⟨[("/cwd/out/src/A.js.prod", 10), ("/cwd/src/A.html", 3)],
        [("/cwd/src/A.js", "/cwd/out/src/A.js.prod"),
         ("/cwd/src/A.js", "/cwd/out/src/A.js.prod")], 1⟩) :=
  ⟨by decide, by decide⟩

theorem resolveId_concrete_entry_point :
    resolveId "/cwd" "SP" "out" false 0 "src/index.js" none
        ⟨[("/cwd/src/index.js", 1)], [], [], 0⟩ =
      some (some "/cwd/src/index.js", ⟨[("/cwd/src/index.js", 1)], [], [], 0⟩) := by
  decide

theorem resolveId_concrete_index_fallback :
    resolveId "/cwd" "SP" "out" false 0 "lib" none
        ⟨[("/cwd/lib/index", 1)], [], [], 0⟩ =
      some (some "/cwd/lib/index", ⟨[("/cwd/lib/index", 1)], [], [], 0⟩) := by
  decide

theorem eslintTransform_concrete_outcomes :
    (eslintTransform [] (fun _ => ⟨1, 0⟩) "src/index.js" = LintOutcome.fatal) ∧
    (eslintTransform [] (fun _ => ⟨0, 2⟩) "src/index.js" = LintOutcome.warned) ∧
    (eslintTransform [] (fun _ => ⟨1, 0⟩) "a/node_modules/x.js" = LintOutcome.skip) ∧
    (eslintTransform [("/s/A.js", "/out/A.js.prod")] (fun _ => ⟨1, 0⟩)
        "/out/A.js.prod" = LintOutcome.skip) :=
  ⟨by decide, by decide, by decide, by decide⟩

theorem mainRun_concrete_outcomes :
    (mainRun (Except.ok ()) (Except.ok ()) [Except.ok ()] = (0, true)) ∧
    (mainRun (Except.ok ()) (Except.ok ())
      [Except.ok (), Except.error BuildError.lintError] = (1, false)) ∧
    (mainRun (Except.error BuildError.configurationError) (Except.ok ()) [] =
      (1, false)) := by
  refine ⟨rfl, rfl, rfl⟩

theorem compileRollupPlugins_concrete :
    compileRollupPlugins true true false =
      [Plugin.includePaths, Plugin.nodeResolve, Plugin.eslintCheck,
       Plugin.buble, Plugin.uglify] := by
  rfl

end Greni
